import Mathlib

/-!
Shallow embedding of the authorization, path-resolution and range-streaming
core of `src/bin/fus.py` (file upload server).

Python library primitives used by that code (`os.path.join`,
`os.path.normpath`, `os.path.abspath`, `os.path.split`, `str.strip`,
`re.search`, file `seek`/`read`) are reproduced as executable Lean functions
on `String` / `List Char`.  Filesystem state (`os.stat`, `os.access`) enters
as explicit oracle functions; Python exceptions become `Except` errors, and
the unbounded `while True` loop of `has_access` and the `while offset <
length` loop of the chunk iterator are given explicit fuel, with `none`
modelling non-termination.
-/

set_option maxHeartbeats 1000000
set_option maxRecDepth 8000

/-- Equality on `Except` results is decidable (needed to evaluate the
embedding on concrete inputs). -/
instance {ε α : Type} [DecidableEq ε] [DecidableEq α] : DecidableEq (Except ε α) := fun a b =>
  match a, b with
  | Except.error e, Except.error e' =>
    if h : e = e' then isTrue (by rw [h]) else isFalse (fun hh => h (by injection hh))
  | Except.ok x, Except.ok y =>
    if h : x = y then isTrue (by rw [h]) else isFalse (fun hh => h (by injection hh))
  | Except.error _, Except.ok _ => isFalse (fun hh => Except.noConfusion hh)
  | Except.ok _, Except.error _ => isFalse (fun hh => Except.noConfusion hh)

/-- Python `s.startswith(pre)`, computed on the character lists (the core
`String.startsWith` does not reduce inside the kernel). -/
def strStartsWith (s pre : String) : Bool := pre.data.isPrefixOf s.data

/-- Python `s.endswith(suf)`, computed on the character lists. -/
def strEndsWith (s suf : String) : Bool := suf.data.isSuffixOf s.data

/-- Python `s[n:]` (drop the first `n` characters). -/
def strDropChars (s : String) (n : Nat) : String := String.mk (s.data.drop n)

/-- Helper for `strSplitOnSlash`: accumulate the current segment (reversed). -/
def splitOnSlashAux : List Char → List Char → List String
  | [], acc => [String.mk acc.reverse]
  | c :: rest, acc =>
    if c = '/' then String.mk acc.reverse :: splitOnSlashAux rest []
    else splitOnSlashAux rest (c :: acc)

/-- Python `s.split('/')`: `""` gives `[""]`, separators at the ends give
empty segments. -/
def strSplitOnSlash (s : String) : List String := splitOnSlashAux s.data []

/-- The reserved unauthenticated principal: `UNAUTH = "anonymous"` in fus.py. -/
def UNAUTH : String := "anonymous"

/-- The `Access` enum of fus.py (values "list", "read", "delete", "write", "mkdir"). -/
inductive Access
  | LIST
  | FETCH
  | DELETE
  | UPLOAD
  | MKDIR
deriving DecidableEq, BEq, Repr

/-- The `AccessError(code, message)` exception of fus.py (`e.args[2]` is the
code, `e.args[1]` the message). -/
structure AccessError where
  code : Nat
  msg : String
deriving DecidableEq, Repr

/-- Every denial raised by `normalize_path` and `has_access` is the same
value, `AccessError(403, "forbidden")`. -/
def forbiddenErr : AccessError := ⟨403, "forbidden"⟩

/-- Python `os.path.join(a, b)` for POSIX, two arguments: an absolute `b`
replaces `a`; otherwise a single separator is inserted unless `a` is empty or
already ends with one. -/
def pyjoin (a b : String) : String :=
  if strStartsWith b "/" then b
  else if a = "" ∨ strEndsWith a "/" then a ++ b
  else a ++ "/" ++ b

/-- Python `'/'.join(l)` — the separator-joined concatenation used both by
`os.path.normpath` and by the ancestor-chain specification below. -/
def joinSegs : List String → String
  | [] => ""
  | [a] => a
  | a :: b :: t => a ++ "/" ++ joinSegs (b :: t)

/-- Python `os.path.normpath` for POSIX: collapse `.`, empty and `..`
segments, preserving the exact initial-slash rule (`//` is kept, `///` and
more collapse to `/`). -/
def pynormpath (p : String) : String :=
  if p = "" then "."
  else
    let initialSlashes : Nat :=
      if strStartsWith p "/" then
        (if strStartsWith p "//" ∧ ¬ strStartsWith p "///" then 2 else 1)
      else 0
    let comps := strSplitOnSlash p
    let newComps := comps.foldl
      (fun acc comp =>
        if comp = "" ∨ comp = "." then acc
        else if comp ≠ ".." ∨ (initialSlashes = 0 ∧ acc = []) ∨ acc.getLast? = some ".." then
          acc ++ [comp]
        else if acc ≠ [] then acc.dropLast
        else acc)
      []
    let joined := String.mk (List.replicate initialSlashes '/') ++ joinSegs newComps
    if joined = "" then "." else joined

/-- Python `os.path.abspath` for POSIX: join a relative argument onto the
process working directory, then `normpath`.  The working directory is a
parameter of the embedding. -/
def pyabspath (cwd p : String) : String :=
  if strStartsWith p "/" then pynormpath p else pynormpath (pyjoin cwd p)

/-- Python `s.strip(c)` for a one-character strip set (used as
`name[len(basedir):].strip(os.path.sep)`). -/
def pystrip (c : Char) (s : String) : String :=
  String.mk (((s.data.dropWhile (fun x => x == c)).reverse.dropWhile (fun x => x == c)).reverse)

/-- Python `str.rstrip('/')` on a raw character list. -/
def pyrstripSlash (s : List Char) : List Char :=
  (s.reverse.dropWhile (fun x => x == '/')).reverse

/-- Python `os.path.split(p)` for POSIX: cut after the last slash
(`i = p.rfind('/') + 1; head, tail = p[:i], p[i:]`), then strip trailing
slashes from the head unless the head consists only of slashes. -/
def pysplitPair (p : String) : String × String :=
  let r := p.data.reverse
  let tl := (r.takeWhile (fun x => x != '/')).reverse
  let hdRaw := (r.dropWhile (fun x => x != '/')).reverse
  let hd :=
    if hdRaw ≠ [] ∧ hdRaw.all (fun x => x == '/') = false then pyrstripSlash hdRaw else hdRaw
  (String.mk hd, String.mk tl)

/-- First component of `os.path.split` (the parent step of the `has_access` loop). -/
def pysplitHead (p : String) : String := (pysplitPair p).1

/-- Second component of `os.path.split` (also `os.path.basename`). -/
def pysplitTail (p : String) : String := (pysplitPair p).2

/-- Per-user record of `config.user_perms[user]`: the `"creds"` entry plus,
for each `Access` member key, the list of directory names granted for that
action (`compute_permissions` fills these; an absent action key models a key
missing from the Python dict). -/
structure UserPerm where
  creds : Option String
  actions : List (Access × List String)
deriving DecidableEq, Repr

/-- The immutable policy snapshot built by `compute_permissions`:
`config.user_perms` and `config.all_dirs`. -/
structure Policy where
  user_perms : List (String × UserPerm)
  all_dirs : List String
deriving DecidableEq, Repr

/-- `config.user_perms.get(user, dict()).get("creds", None)`. -/
def getStoredCreds (pol : Policy) (user : String) : Option String :=
  match pol.user_perms.lookup user with
  | none => none
  | some pm => pm.creds

/-- The credential comparison performed by `get_user`:
`config.user_perms.get(user, dict()).get("creds", None) == password`.
Python `None == None` is `True`, `None == "s"` is `False`, mirrored by `BEq`
on `Option String`. -/
def get_user_check (pol : Policy) (user : String) (password : Option String) : Bool :=
  getStoredCreds pol user == password

/-- Outcome of `MyAuthorizer.validate_authentication` (FTP adapter): it either
returns normally or raises `AuthenticationFailed`. -/
inductive AuthOutcome
  | ok
  | authenticationFailed
deriving DecidableEq, Repr

/-- `MyAuthorizer.validate_authentication`: raise unless the stored creds
equal the supplied password. -/
def validate_authentication (pol : Policy) (username : String) (password : Option String) :
    AuthOutcome :=
  if getStoredCreds pol username != password then AuthOutcome.authenticationFailed
  else AuthOutcome.ok

/-- `get_user` (HTTP): credentials extracted from the request (`none` when no
usable credentials were presented, in which case `get_user_from_request`
yields `(UNAUTH, None)`); if the stored-creds comparison fails the principal
falls back to `UNAUTH`.  The returned pair is (user, password). -/
def get_user (pol : Policy) (req : Option (String × String)) : String × Option String :=
  let u : String × Option String :=
    match req with
    | some (user, password) => (user, some password)
    | none => (UNAUTH, none)
  if getStoredCreds pol u.1 == u.2 then u else (UNAUTH, none)

/-- The `while True` inheritance loop of `has_access`, with explicit fuel:
check registration of the current name, stop at the root boundary, otherwise
step to `os.path.split(dirname)[0]`.  `none` models non-termination of the
Python loop (which loops forever on all-slash names such as `"//"`). -/
def hasAccessWalk (allDirs dirs : List String) : Nat → String → Option Bool
  | 0, _ => none
  | fuel+1, d =>
    if d ∈ allDirs then some (decide (d ∈ dirs))
    else if d.length = 0 ∨ d = "/" then some false
    else hasAccessWalk allDirs dirs fuel (pysplitHead d)

/-- `has_access(user, dirname, action)`: unknown user or missing action key
raise `AccessError(403, "forbidden")`; otherwise the inheritance walk runs.
The fuel `dirname.length + 1` is enough for every terminating run of the
Python loop (each parent step shortens a non-all-slash name). -/
def has_access (pol : Policy) (user dirname : String) (action : Access) :
    Option (Except AccessError Bool) :=
  match pol.user_perms.lookup user with
  | none => some (Except.error forbiddenErr)
  | some pm =>
    match pm.actions.lookup action with
    | none => some (Except.error forbiddenErr)
    | some dirs => (hasAccessWalk pol.all_dirs dirs (dirname.length + 1) dirname).map Except.ok

/-- File type as far as `normalize_path` consults `os.stat`:
`stat.S_ISDIR`, `stat.S_ISREG`, or anything else. -/
inductive FType
  | dir
  | reg
  | other
deriving DecidableEq, Repr

/-- Result of a successful `os.stat`, restricted to the fields fus.py reads
(`st_uid` and the mode bits). -/
structure StatInfo where
  uid : Nat
  ftype : FType
deriving DecidableEq, Repr

/-- `normalize_path(path)`: canonicalize `os.path.join(basedir, path)` with
`os.path.abspath`, compute the basedir-relative name stripped of separators,
enforce the containment check, stat the result (any stat failure, modelled as
`none`, is a 403), and classify directory / regular file / other.  The
`st_uid != os.geteuid()` comparison only logs a warning, so `euid` does not
influence the result. -/
def normalize_path (st : String → Option StatInfo) (euid : Nat) (cwd basedir path : String) :
    Except AccessError (String × String × Option String) :=
  let name := pyabspath cwd (pyjoin basedir path)
  let rel := pystrip '/' (strDropChars name basedir.length)
  if name ≠ basedir ∧ ¬ strStartsWith name (basedir ++ "/") then Except.error forbiddenErr
  else
    match st name with
    | none => Except.error forbiddenErr
    | some sr =>
      match sr.ftype with
      | FType.dir => Except.ok (name, rel, none)
      | FType.reg => Except.ok (name, pysplitHead rel, some (pysplitTail rel))
      | FType.other => Except.error forbiddenErr

/-- Python `int` on a nonempty digit string. -/
def natOfDigits (ds : List Char) : Nat :=
  ds.foldl (fun acc c => 10 * acc + (c.toNat - '0'.toNat)) 0

/-- One anchored attempt of the regex `(\d+)-(\d*)`: a greedy nonempty digit
run, a literal dash, then a greedy possibly-empty digit run.  Backtracking
inside `\d+` can never help, because every shorter digit run is followed by a
digit rather than a dash. -/
def matchRangeAt (s : List Char) : Option (List Char × List Char) :=
  let run := s.takeWhile Char.isDigit
  if run = [] then none
  else
    match s.dropWhile Char.isDigit with
    | '-' :: tl => some (run, tl.takeWhile Char.isDigit)
    | _ => none

/-- Python `re.search(r'(\d+)-(\d*)', s)`: leftmost match, returning the two
groups, or `none` when the pattern occurs nowhere. -/
def reSearchRange : List Char → Option (List Char × List Char)
  | [] => none
  | c :: rest =>
    match matchRangeAt (c :: rest) with
    | some g => some g
    | none => reSearchRange rest

/-- Python exceptions escaping `streamfile`: `m.groups()` on a failed match
raises `AttributeError`. -/
inductive PyExc
  | attributeError
deriving DecidableEq, Repr

/-- The 206 response assembled by `streamfile` for a present Range header:
status, the `Content-Range` header string, and the chunk list produced by the
iterator (`none` when the iterator would not terminate). -/
structure RangeResp where
  status : Nat
  contentRange : String
  body : Option (List (List Nat))
deriving DecidableEq, Repr

/-- Result of `streamfile`: the `send_file` whole-file path (no or empty
Range header) or a ranged 206 response. -/
inductive StreamOut
  | whole (body : List Nat)
  | ranged (r : RangeResp)
deriving DecidableEq, Repr

/-- The chunk sizes produced by `send_chunks_iter`'s loop: while
`offset < length`, take `chunk = chunksize` clamped so that
`offset + chunk ≤ length`, advance, and yield.  Fuel models the unbounded
loop (`none` = the Python generator never finishes, e.g. `chunksize ≤ 0`). -/
def chunkSteps (c L : Int) : Nat → Int → Option (List Int)
  | 0, offset => if offset < L then none else some []
  | fuel+1, offset =>
    if offset < L then
      let ch := if offset + c > L then L - offset else c
      (chunkSteps c L fuel (offset + ch)).map (fun t => ch :: t)
    else some []

/-- Python `f.seek(pos); f.read(n)` on a file with the given bytes: reading
clamps at end of file; a negative `n` reads to the end (unreachable in
`send_chunks_iter` when `chunksize ≥ 1`). -/
def pyRead (file : List Nat) (pos n : Int) : List Nat :=
  if n < 0 then file.drop pos.toNat else (file.drop pos.toNat).take n.toNat

/-- The bytes yielded by `send_chunks_iter`: each chunk is read at
`start + offset` where `offset` is the sum of the previous chunk sizes. -/
def readsOf (file : List Nat) : Int → List Int → List (List Nat)
  | _, [] => []
  | start, ch :: t => pyRead file start ch :: readsOf file (start + ch) t

/-- `send_chunks_iter(filename, start, length)` with chunk size `c`:
the full list of yielded reads, or `none` when the loop would not finish
within `L.toNat + 1` iterations (which is enough for every `c ≥ 1`). -/
def sendChunksIter (file : List Nat) (c start L : Int) : Option (List (List Nat)) :=
  (chunkSteps c L (L.toNat + 1) 0).map (fun chunks => readsOf file start chunks)

/-- `byte1` in `streamfile`: `byte1 = 0`, overridden by `int(g[0])` when the
first group is nonempty (it always is when the pattern matched). -/
def rangeStart (g0 : List Char) : Int := if g0 ≠ [] then (natOfDigits g0 : Int) else 0

/-- `byte2` in `streamfile`: `None`, overridden by `int(g[1])` when the
second group is nonempty. -/
def rangeEnd (g1 : List Char) : Option Int := if g1 ≠ [] then some (natOfDigits g1 : Int) else none

/-- `length` in `streamfile`: `size - byte1`, clamped to
`min(byte2 - byte1 + 1, size - byte1)` when `byte2` is present.  Plain Python
`int` arithmetic — the result can be negative. -/
def rangeLen (size : Int) (g0 g1 : List Char) : Int :=
  match rangeEnd g1 with
  | none => size - rangeStart g0
  | some b2 => min (b2 - rangeStart g0 + 1) (size - rangeStart g0)

/-- The 206 response `streamfile` builds for a matched Range header:
`Content-Range: bytes {byte1}-{byte1+length-1}/{size}` over the lazy chunk
iterator started at `byte1`. -/
def rangedResp (file : List Nat) (c : Int) (g0 g1 : List Char) : RangeResp :=
  { status := 206,
    contentRange := "bytes " ++ toString (rangeStart g0) ++ "-"
        ++ toString (rangeStart g0 + rangeLen (file.length : Int) g0 g1 - 1)
        ++ "/" ++ toString ((file.length : Int)),
    body := sendChunksIter file c (rangeStart g0) (rangeLen (file.length : Int) g0 g1) }

/-- `streamfile(fullname)`: no Range header (or an empty one, which is falsy
in Python) takes the `send_file` path; otherwise `re.search(r'(\d+)-(\d*)')`
is consulted (`m.groups()` on a failed search raises `AttributeError`) and
the 206 ranged response is produced. -/
def streamfile (file : List Nat) (c : Int) (header : Option String) : Except PyExc StreamOut :=
  match header with
  | none => Except.ok (StreamOut.whole file)
  | some h =>
    if h = "" then Except.ok (StreamOut.whole file)
    else
      match reSearchRange h.data with
      | none => Except.error PyExc.attributeError
      | some (g0, g1) => Except.ok (StreamOut.ranged (rangedResp file c g0 g1))

/-- Protocol-level response shapes produced by the `redirect_on_exception`
decorator around `handle`. -/
inductive WebResp
  | served
  | challenge401
  | plainDenial (code : Nat) (msg : String)
  | redirect302
deriving DecidableEq, Repr

/-- `redirect_on_exception` for exceptions that are not `AccessError`
(e.g. the `AttributeError` from a failed range match): `redirect("/", 302)`. -/
def responseOfStream : Except PyExc StreamOut → WebResp
  | Except.ok _ => WebResp.served
  | Except.error _ => WebResp.redirect302

/-- `redirect_on_exception` for `AccessError`: code 401 becomes the
`WWW-Authenticate` challenge response, every other code a plain
`Response(message, code)`. -/
def responseOfAccess : Except AccessError Unit → WebResp
  | Except.ok _ => WebResp.served
  | Except.error e =>
    if e.code = 401 then WebResp.challenge401 else WebResp.plainDenial e.code e.msg

/-- Python `str.strip()` (whitespace strip, ASCII approximation). -/
def pystripWs (s : String) : String :=
  String.mk (((s.data.dropWhile Char.isWhitespace).reverse.dropWhile Char.isWhitespace).reverse)

/-- `django.utils.text.get_valid_filename` (external library used by
`upload_file`): strip, spaces to underscores, then keep only characters
matching `[-\w.]`, with `\w` modelled over ASCII as alphanumeric or
underscore. -/
def get_valid_filename (s : String) : String :=
  let t := (pystripWs s).data.map (fun ch => if ch = ' ' then '_' else ch)
  String.mk (t.filter (fun ch => ch.isAlphanum || ch == '_' || ch == '-' || ch == '.'))

/-- Filesystem oracle for `upload_file`: `accessR` is `os.access(-, os.R_OK)`
(the only check the code performs) and `existsAt` is plain existence, which
the code never consults — the two differ on existing but unreadable files. -/
structure UploadEnv where
  accessR : String → Bool
  existsAt : String → Bool

/-- Outcome of `upload_file`: the invalid-filename redirect, the
`Response("duplicate", 403)` rejection (no write performed), or a completed
`file.save(fullname)` — the only constructor that represents a write. -/
inductive UploadResult
  | invalidRedirect (directory : String)
  | duplicate
  | saved (fullname : String)
deriving DecidableEq, Repr

/-- `upload_file(user, directory)`: sanitize the basename of the submitted
filename, join onto directory and basedir, reject empty names, reject when
`os.access(fullname, os.R_OK)` holds, otherwise save. -/
def upload_file (env : UploadEnv) (basedir directory reqFilename : String) : UploadResult :=
  let fname := get_valid_filename (pysplitTail reqFilename)
  let name := pyjoin directory fname
  let fullname := pyjoin basedir name
  if fname = "" then UploadResult.invalidRedirect directory
  else if env.accessR fullname then UploadResult.duplicate
  else UploadResult.saved fullname

/-- The listing branch of `handle` (`fname is None and action in [None,
"list"]`): resolve the principal with `get_user`, then raise
`AccessError(HTTPStatus.UNAUTHORIZED, "forbidden")` — code 401 — unless one
of LIST, UPLOAD, MKDIR is granted (Python `or` short-circuits; an
`AccessError` raised inside `has_access` propagates).  `none` models a
non-terminating inheritance walk. -/
def handle_list (pol : Policy) (req : Option (String × String)) (dirname : String) :
    Option (Except AccessError Unit) :=
  match has_access pol (get_user pol req).1 dirname Access.LIST with
  | none => none
  | some (Except.error e) => some (Except.error e)
  | some (Except.ok lb) =>
    if lb then some (Except.ok ()) else
    match has_access pol (get_user pol req).1 dirname Access.UPLOAD with
    | none => none
    | some (Except.error e) => some (Except.error e)
    | some (Except.ok ub) =>
      if ub then some (Except.ok ()) else
      match has_access pol (get_user pol req).1 dirname Access.MKDIR with
      | none => none
      | some (Except.error e) => some (Except.error e)
      | some (Except.ok mb) =>
        if mb then some (Except.ok ()) else some (Except.error ⟨401, "forbidden"⟩)

/-- The response the HTTP client sees for the listing branch, after the
`redirect_on_exception` decorator. -/
def handleListResp (pol : Policy) (req : Option (String × String)) (dirname : String) :
    Option WebResp :=
  (handle_list pol req dirname).map responseOfAccess

/-- A legal path segment: nonempty and slash-free. -/
def SegOk (s : String) : Prop := s ≠ "" ∧ ∀ c ∈ s.data, c ≠ '/'

instance : DecidablePred SegOk := fun s => by unfold SegOk; infer_instance

/-- Segment lists of normalized relative directory names: `joinSegs segs`
ranges exactly over the names with no leading or trailing separator and no
empty segment (including the root, `""`, for `segs = []`) — the form
`normalize_path` hands to `has_access`. -/
def NormalizedSegs (segs : List String) : Prop := ∀ s ∈ segs, SegOk s

instance : DecidablePred NormalizedSegs := fun l => by unfold NormalizedSegs; infer_instance

/-- Helper for `prefixChain`, structurally recursive on the length bound so
that it reduces inside the kernel. -/
def prefixChainAux : Nat → List String → List (List String)
  | _, [] => [[]]
  | 0, l => [l]
  | n+1, l => l :: prefixChainAux n l.dropLast

/-- Descending chain of segment-list prefixes: the directory itself, then
each ancestor, down to the root `[]`. -/
def prefixChain (l : List String) : List (List String) := prefixChainAux l.length l

/-- The nearest registered ancestor of a normalized directory (itself
included, the root `""` last), as the first registered name on the ancestor
chain. -/
def nearestRegAncestorSegs (allDirs : List String) (segs : List String) : Option String :=
  ((prefixChain segs).map joinSegs).find? (fun D => decide (D ∈ allDirs))

/-- The decision the spec ascribes to `has_access`: membership of the
nearest registered ancestor in the principal's granted list for the action,
`false` when no ancestor is registered. -/
def grantDecision (allDirs dirs : List String) (segs : List String) : Bool :=
  match nearestRegAncestorSegs allDirs segs with
  | some D => decide (D ∈ dirs)
  | none => false

/-- All five members of the `Access` enum. -/
def allActions : List Access :=
  [Access.LIST, Access.FETCH, Access.DELETE, Access.UPLOAD, Access.MKDIR]

/-- Shape guaranteed by `compute_permissions`: the `UNAUTH` principal is
always present, and `init_actions` gives every present principal an entry for
every action. -/
def WellFormedPolicy (pol : Policy) : Prop :=
  (pol.user_perms.lookup UNAUTH).isSome = true ∧
  ∀ e ∈ pol.user_perms, ∀ a ∈ allActions, (e.2.actions.lookup a).isSome = true

instance (pol : Policy) : Decidable (WellFormedPolicy pol) := by
  unfold WellFormedPolicy
  have : DecidablePred (fun e : String × UserPerm =>
      ∀ a ∈ allActions, (e.2.actions.lookup a).isSome = true) :=
    fun e => List.decidableBAll _ allActions
  infer_instance

/-- Action table with every action present and no grants (`init_actions`). -/
def emptyActions : List (Access × List String) :=
  [(Access.LIST, []), (Access.FETCH, []), (Access.DELETE, []),
   (Access.UPLOAD, []), (Access.MKDIR, [])]

/-- Sample policy: one user `"u"` granted LIST on registered directory `"a"`. -/
def pol2w : Policy :=
  { user_perms := [("u", { creds := some "pw", actions := [(Access.LIST, ["a"])] })],
    all_dirs := ["a"] }

/-- Sample policy for the unknown-user / unknown-action cases: only `"carol"`
is present and her table has only a LIST entry. -/
def pol3 : Policy :=
  { user_perms := [("carol", { creds := some "pw", actions := [(Access.LIST, [])] })],
    all_dirs := [] }

/-- Default policy fragment: the reserved `anonymous` principal with
`creds = None`, as `compute_permissions` seeds it. -/
def pol5 : Policy :=
  { user_perms := [(UNAUTH, { creds := none, actions := emptyActions })],
    all_dirs := [] }

/-- Policy with a valid user `"alice"` (password `"pw"`) who holds no grants
at all, plus the seeded anonymous principal. -/
def pol9 : Policy :=
  { user_perms := [(UNAUTH, { creds := none, actions := emptyActions }),
                   ("alice", { creds := some "pw", actions := emptyActions })],
    all_dirs := [] }

/-- Stat oracle under which the sibling directory `/data/ab` exists. -/
def statSibling : String → Option StatInfo :=
  fun n => if n = "/data/ab" then some { uid := 0, ftype := FType.dir } else none

/-- Stat oracle under which every stat fails. -/
def statNone : String → Option StatInfo := fun _ => none

/-- Upload environment: the target exists but is not readable by the server
process, so `os.access(-, R_OK)` is false. -/
def env8 : UploadEnv := { accessR := fun _ => false, existsAt := fun _ => true }

/-- Upload environment: the target exists and is readable. -/
def env8b : UploadEnv := { accessR := fun _ => true, existsAt := fun _ => true }

/-! ### Helper lemmas -/

lemma dropWhile_append_of_all {α} (p : α → Bool) (xs ys : List α)
    (h : ∀ x ∈ xs, p x = true) :
    (xs ++ ys).dropWhile p = ys.dropWhile p := by
  induction xs with
  | nil => rfl
  | cons a t ih =>
    have ha := h a (by simp)
    simp only [List.cons_append, List.dropWhile_cons, ha, if_true]
    exact ih (fun x hx => h x (by simp [hx]))

lemma stringMk_data (s : String) : String.mk s.data = s := rfl

lemma string_eq_of_data {s t : String} (h : s.data = t.data) : s = t := by
  cases s; cases t; exact congrArg String.mk (by simpa using h)

lemma string_ne_of_data {s t : String} (h : s.data ≠ t.data) : s ≠ t := by
  intro he; exact h (by rw [he])

lemma joinSegs_cons (a : String) (l : List String) (hl : l ≠ []) :
    joinSegs (a :: l) = a ++ "/" ++ joinSegs l := by
  cases l with
  | nil => simp at hl
  | cons b t => rfl

lemma joinSegs_concat_data (l : List String) (a : String) (hl : l ≠ []) :
    (joinSegs (l ++ [a])).data = (joinSegs l).data ++ '/' :: a.data := by
  induction l with
  | nil => simp at hl
  | cons b t ih =>
    cases t with
    | nil =>
      show (joinSegs [b, a]).data = _
      simp [joinSegs, String.data_append]
    | cons c t' =>
      have h1 : joinSegs ((b :: c :: t') ++ [a]) = b ++ "/" ++ joinSegs ((c :: t') ++ [a]) := rfl
      have h2 : joinSegs (b :: c :: t') = b ++ "/" ++ joinSegs (c :: t') := rfl
      rw [h1, h2]
      simp only [String.data_append, ih (by simp), List.append_assoc]

lemma joinSegs_concat_length (l : List String) (a : String) (hl : l ≠ []) :
    (joinSegs (l ++ [a])).length = (joinSegs l).length + 1 + a.length := by
  show (joinSegs (l ++ [a])).data.length = (joinSegs l).data.length + 1 + a.data.length
  rw [joinSegs_concat_data l a hl]
  simp
  omega

lemma data_ne_nil_of_ne_empty {s : String} (h : s ≠ "") : s.data ≠ [] := by
  intro hd
  exact h (string_eq_of_data (by simp [hd]))

lemma joinSegs_head_ne_slash (l : List String) (hl : l ≠ []) (hn : NormalizedSegs l) :
    ∃ c rest, (joinSegs l).data = c :: rest ∧ c ≠ '/' := by
  cases l with
  | nil => simp at hl
  | cons b t =>
    have hb : SegOk b := hn b (by simp)
    obtain ⟨c, cs, hbd⟩ : ∃ c cs, b.data = c :: cs := by
      cases hbd : b.data with
      | nil => exact absurd hbd (data_ne_nil_of_ne_empty hb.1)
      | cons c cs => exact ⟨c, cs, rfl⟩
    have hc : c ≠ '/' := hb.2 c (by rw [hbd]; simp)
    cases t with
    | nil => exact ⟨c, cs, by simpa [joinSegs] using hbd, hc⟩
    | cons d t' =>
      refine ⟨c, cs ++ ('/' :: (joinSegs (d :: t')).data), ?_, hc⟩
      rw [joinSegs_cons b (d :: t') (by simp)]
      simp [String.data_append, hbd]

lemma joinSegs_rev_head_ne_slash (l : List String) (hl : l ≠ []) (hn : NormalizedSegs l) :
    ∃ c rest, (joinSegs l).data.reverse = c :: rest ∧ c ≠ '/' := by
  rcases (List.eq_nil_or_concat l) with h | ⟨l', a, rfl⟩
  · exact absurd h hl
  · simp only [List.concat_eq_append] at hl hn ⊢
    have ha : SegOk a := hn a (by simp)
    obtain ⟨c, cs, had⟩ : ∃ c cs, a.data.reverse = c :: cs := by
      cases had : a.data.reverse with
      | nil =>
        have : a.data = [] := by simpa using congrArg List.reverse had
        exact absurd this (data_ne_nil_of_ne_empty ha.1)
      | cons c cs => exact ⟨c, cs, rfl⟩
    have hc : c ≠ '/' := by
      apply ha.2
      have : c ∈ a.data.reverse := by rw [had]; simp
      simpa using this
    by_cases hl' : l' = []
    · subst hl'
      exact ⟨c, cs, by simpa [joinSegs] using had, hc⟩
    · refine ⟨c, cs ++ '/' :: (joinSegs l').data.reverse, ?_, hc⟩
      rw [joinSegs_concat_data l' a hl']
      simp [had]

lemma pysplitHead_data_eq (p : String) :
    pysplitHead p = String.mk (
      if ((p.data.reverse.dropWhile (fun x => x != '/')).reverse ≠ [] ∧
          ((p.data.reverse.dropWhile (fun x => x != '/')).reverse.all (fun x => x == '/')) = false)
      then pyrstripSlash ((p.data.reverse.dropWhile (fun x => x != '/')).reverse)
      else (p.data.reverse.dropWhile (fun x => x != '/')).reverse) := rfl

lemma pysplitHead_of_slashfree (a : String) (ha : ∀ c ∈ a.data, c ≠ '/') :
    pysplitHead a = "" := by
  rw [pysplitHead_data_eq]
  have h1 : (a.data.reverse.dropWhile (fun x => x != '/')) = [] :=
    List.dropWhile_eq_nil_iff.mpr (fun x hx => bne_iff_ne.mpr (ha x (by simpa using hx)))
  rw [h1]
  simp

lemma pysplitHead_joinSegs_concat (l : List String) (a : String)
    (hn : NormalizedSegs (l ++ [a])) :
    pysplitHead (joinSegs (l ++ [a])) = joinSegs l := by
  have ha : SegOk a := hn a (by simp)
  have hnl : NormalizedSegs l := fun s hs => hn s (by simp [hs])
  by_cases hl : l = []
  · subst hl
    have hja : joinSegs ([] ++ [a]) = a := by simp [joinSegs]
    rw [hja]
    exact pysplitHead_of_slashfree a ha.2
  · have hdata : (joinSegs (l ++ [a])).data = (joinSegs l).data ++ '/' :: a.data :=
      joinSegs_concat_data l a hl
    have hrev : (joinSegs (l ++ [a])).data.reverse
        = a.data.reverse ++ '/' :: (joinSegs l).data.reverse := by
      rw [hdata]; simp
    have hall : ∀ x ∈ a.data.reverse, ((fun x => x != '/') x) = true :=
      fun x hx => bne_iff_ne.mpr (ha.2 x (by simpa using hx))
    have hdw : ((joinSegs (l ++ [a])).data.reverse.dropWhile (fun x => x != '/'))
        = '/' :: (joinSegs l).data.reverse := by
      rw [hrev, dropWhile_append_of_all _ _ _ hall]
      simp [List.dropWhile_cons]
    have hhdRaw : ((joinSegs (l ++ [a])).data.reverse.dropWhile (fun x => x != '/')).reverse
        = (joinSegs l).data ++ ['/'] := by
      rw [hdw]; simp
    rw [pysplitHead_data_eq, hhdRaw]
    have hcall : (((joinSegs l).data ++ ['/']).all (fun x => x == '/')) = false := by
      obtain ⟨c, rest, hjd, hc⟩ := joinSegs_head_ne_slash l hl hnl
      rw [hjd]
      simp [hc]
    rw [if_pos ⟨by simp, hcall⟩]
    have hstrip : pyrstripSlash ((joinSegs l).data ++ ['/']) = (joinSegs l).data := by
      unfold pyrstripSlash
      have h1 : ((joinSegs l).data ++ ['/']).reverse = '/' :: (joinSegs l).data.reverse := by
        simp
      rw [h1]
      have h2 : List.dropWhile (fun x => x == '/') ('/' :: (joinSegs l).data.reverse)
          = List.dropWhile (fun x => x == '/') (joinSegs l).data.reverse := by
        simp [List.dropWhile_cons]
      rw [h2]
      obtain ⟨c, rest, hjdr, hc⟩ := joinSegs_rev_head_ne_slash l hl hnl
      rw [hjdr]
      have h3 : List.dropWhile (fun x => x == '/') (c :: rest) = c :: rest := by
        simp [List.dropWhile_cons, hc]
      rw [h3, ← hjdr, List.reverse_reverse]
    rw [hstrip]

lemma joinSegs_concat_ne_empty (l : List String) (a : String) (ha : a ≠ "") :
    joinSegs (l ++ [a]) ≠ "" := by
  by_cases hl : l = []
  · subst hl; simpa [joinSegs] using ha
  · apply string_ne_of_data
    rw [joinSegs_concat_data l a hl]
    simp

lemma joinSegs_concat_ne_slash (l : List String) (a : String)
    (hn : NormalizedSegs (l ++ [a])) :
    joinSegs (l ++ [a]) ≠ "/" := by
  intro he
  obtain ⟨c, rest, hrev, hc⟩ := joinSegs_rev_head_ne_slash (l ++ [a]) (by simp) hn
  rw [he] at hrev
  have : ('/' : Char) = c ∧ ([] : List Char) = rest := by simpa using hrev
  exact hc this.1.symm

lemma joinSegs_length_lt (l : List String) (a : String) (ha : a ≠ "") :
    (joinSegs l).length < (joinSegs (l ++ [a])).length := by
  by_cases hl : l = []
  · subst hl
    show ("" : String).length < (joinSegs [a]).length
    have : (joinSegs [a]) = a := rfl
    rw [this]
    exact List.length_pos.mpr (data_ne_nil_of_ne_empty ha)
  · rw [joinSegs_concat_length l a hl]; omega

lemma hasAccessWalk_succ (allDirs dirs : List String) (fuel : Nat) (d : String) :
    hasAccessWalk allDirs dirs (fuel+1) d =
      if d ∈ allDirs then some (decide (d ∈ dirs))
      else if d.length = 0 ∨ d = "/" then some false
      else hasAccessWalk allDirs dirs fuel (pysplitHead d) := rfl

lemma prefixChain_nil : prefixChain ([] : List String) = [[]] := rfl

lemma prefixChainAux_succ (n : Nat) (x : String) (xs : List String) :
    prefixChainAux (n+1) (x :: xs) = (x :: xs) :: prefixChainAux n (x :: xs).dropLast := rfl

lemma prefixChain_concat (l : List String) (a : String) :
    prefixChain (l ++ [a]) = (l ++ [a]) :: prefixChain l := by
  obtain ⟨x, xs, hl⟩ : ∃ x xs, l ++ [a] = x :: xs := by
    cases hcase : l ++ [a] with
    | nil => simp at hcase
    | cons x xs => exact ⟨x, xs, rfl⟩
  have hlen : (l ++ [a]).length = l.length + 1 := by simp
  unfold prefixChain
  rw [hlen, hl, prefixChainAux_succ, ← hl, List.dropLast_concat]

lemma prefixChain_head (segs : List String) : ∃ rest, prefixChain segs = segs :: rest := by
  rcases List.eq_nil_or_concat segs with rfl | ⟨l, a, rfl⟩
  · exact ⟨[], rfl⟩
  · simp only [List.concat_eq_append]
    rw [prefixChain_concat]
    exact ⟨prefixChain l, rfl⟩

lemma walk_correct (allDirs dirs : List String) :
    ∀ segs : List String, NormalizedSegs segs →
    ∀ fuel : Nat, (joinSegs segs).length < fuel →
      hasAccessWalk allDirs dirs fuel (joinSegs segs) = some (grantDecision allDirs dirs segs) := by
  intro segs
  induction segs using List.reverseRecOn with
  | nil =>
    intro hn fuel hf
    obtain ⟨f, rfl⟩ : ∃ f, fuel = f + 1 := by
      cases fuel with
      | zero => omega
      | succ f => exact ⟨f, rfl⟩
    have hj : joinSegs [] = "" := rfl
    rw [hj, hasAccessWalk_succ]
    unfold grantDecision nearestRegAncestorSegs
    rw [prefixChain_nil]
    by_cases h : "" ∈ allDirs
    · simp [h, List.find?, joinSegs]
    · simp [h, List.find?, joinSegs]
  | append_singleton l a ih =>
    intro hn fuel hf
    have ha : SegOk a := hn a (by simp)
    have hnl : NormalizedSegs l := fun s hs => hn s (by simp [hs])
    obtain ⟨f, rfl⟩ : ∃ f, fuel = f + 1 := by
      cases fuel with
      | zero => omega
      | succ f => exact ⟨f, rfl⟩
    rw [hasAccessWalk_succ]
    by_cases hreg : joinSegs (l ++ [a]) ∈ allDirs
    · rw [if_pos hreg]
      unfold grantDecision nearestRegAncestorSegs
      rw [prefixChain_concat l a, List.map_cons,
        List.find?_cons_of_pos _ (by simpa using hreg)]
    · rw [if_neg hreg]
      have hne : ¬ ((joinSegs (l ++ [a])).length = 0 ∨ joinSegs (l ++ [a]) = "/") := by
        push_neg
        refine ⟨?_, joinSegs_concat_ne_slash l a hn⟩
        intro h0
        exact (joinSegs_concat_ne_empty l a ha.1)
          (string_eq_of_data (List.length_eq_zero.mp h0))
      rw [if_neg hne, pysplitHead_joinSegs_concat l a hn]
      have hlen : (joinSegs l).length < f := by
        have h1 := joinSegs_length_lt l a ha.1
        omega
      rw [ih hnl f hlen]
      unfold grantDecision nearestRegAncestorSegs
      rw [prefixChain_concat l a, List.map_cons,
        List.find?_cons_of_neg _ (by simpa using hreg)]

lemma chunkSteps_succ (c L : Int) (fuel : Nat) (offset : Int) :
    chunkSteps c L (fuel+1) offset =
      if offset < L then
        (chunkSteps c L fuel (offset + (if offset + c > L then L - offset else c))).map
          (fun t => (if offset + c > L then L - offset else c) :: t)
      else some [] := rfl

lemma ceil_div_pos (cN : Nat) (hc : 1 ≤ cN) (M : Nat) (hM : 1 ≤ M) :
    (M + cN - 1) / cN = (M - 1) / cN + 1 := by
  have h : M + cN - 1 = (M - 1) + cN := by omega
  rw [h, Nat.add_div_right _ (by omega)]

lemma chunkSteps_correct (c : Int) (hc : 1 ≤ c) :
    ∀ (fuel : Nat) (L offset : Int), 0 ≤ offset → offset ≤ L →
      (L - offset).toNat < fuel →
      ∃ chunks, chunkSteps c L fuel offset = some chunks ∧
        chunks.length = ((L - offset).toNat + c.toNat - 1) / c.toNat ∧
        chunks.sum = L - offset ∧
        ∀ ch ∈ chunks, 1 ≤ ch ∧ ch ≤ c := by
  intro fuel
  induction fuel with
  | zero => intro L offset _ _ hf; omega
  | succ f ih =>
    intro L offset h0 hLe hf
    have hcN : 1 ≤ c.toNat := by omega
    by_cases hlt : offset < L
    · have hM1 : 1 ≤ (L - offset).toNat := by omega
      by_cases hbig : offset + c > L
      · obtain ⟨chunks', he, hlen, hsum, hbnd⟩ := ih L L (by omega) (le_refl L) (by omega)
        refine ⟨(L - offset) :: chunks', ?_, ?_, ?_, ?_⟩
        · rw [chunkSteps_succ, if_pos hlt, if_pos hbig]
          have hoff : offset + (L - offset) = L := by omega
          rw [hoff, he]
          rfl
        · simp only [List.length_cons, hlen]
          have hz : (L - L).toNat = 0 := by omega
          rw [hz]
          have e1 : (0 + c.toNat - 1) / c.toNat = 0 := Nat.div_eq_of_lt (by omega)
          have e2 : ((L - offset).toNat - 1) / c.toNat = 0 := Nat.div_eq_of_lt (by omega)
          rw [ceil_div_pos c.toNat hcN _ hM1, e1, e2]
        · rw [List.sum_cons, hsum]; omega
        · intro x hx
          rcases List.mem_cons.mp hx with rfl | hx'
          · exact ⟨by omega, by omega⟩
          · exact hbnd x hx'
      · obtain ⟨chunks', he, hlen, hsum, hbnd⟩ := ih L (offset + c) (by omega) (by omega) (by omega)
        refine ⟨c :: chunks', ?_, ?_, ?_, ?_⟩
        · rw [chunkSteps_succ, if_pos hlt, if_neg hbig, he]
          rfl
        · simp only [List.length_cons, hlen]
          have heq : (L - (offset + c)).toNat + c.toNat - 1 = (L - offset).toNat - 1 := by omega
          rw [heq, ceil_div_pos c.toNat hcN _ hM1]
        · rw [List.sum_cons, hsum]; omega
        · intro x hx
          rcases List.mem_cons.mp hx with rfl | hx'
          · exact ⟨by omega, by omega⟩
          · exact hbnd x hx'
    · refine ⟨[], ?_, ?_, ?_, by simp⟩
      · rw [chunkSteps_succ, if_neg hlt]
      · have hz : (L - offset).toNat = 0 := by omega
        simp only [List.length_nil, hz]
        exact (Nat.div_eq_of_lt (by omega)).symm
      · simp only [List.sum_nil]; omega

lemma readsOf_nil (file : List Nat) (start : Int) : readsOf file start [] = [] := rfl

lemma readsOf_cons (file : List Nat) (start ch : Int) (t : List Int) :
    readsOf file start (ch :: t) = pyRead file start ch :: readsOf file (start + ch) t := rfl

lemma readsOf_length_sum (file : List Nat) :
    ∀ (chunks : List Int) (start : Int), 0 ≤ start →
      (∀ ch ∈ chunks, 1 ≤ ch) →
      start + chunks.sum ≤ (file.length : Int) →
      ((readsOf file start chunks).map List.length).sum = chunks.sum.toNat := by
  intro chunks
  induction chunks with
  | nil => intro start _ _ _; simp [readsOf_nil]
  | cons ch t ih =>
    intro start h0 hb hle
    rw [List.sum_cons] at hle
    have hch : 1 ≤ ch := hb ch (by simp)
    have hsum_t : 0 ≤ t.sum :=
      List.sum_nonneg (fun x hx => by have := hb x (by simp [hx]); omega)
    have hred : (pyRead file start ch).length = ch.toNat := by
      unfold pyRead
      rw [if_neg (by omega), List.length_take, List.length_drop]
      omega
    rw [readsOf_cons, List.map_cons, List.sum_cons, hred,
      ih (start + ch) (by omega) (fun x hx => hb x (by simp [hx])) (by omega), List.sum_cons]
    omega

lemma readsOf_length_le (file : List Nat) (c : Int) :
    ∀ (chunks : List Int) (start : Int),
      (∀ ch ∈ chunks, 1 ≤ ch ∧ ch ≤ c) →
      ∀ r ∈ readsOf file start chunks, (r.length : Int) ≤ c := by
  intro chunks
  induction chunks with
  | nil => intro start _ r hr; simp [readsOf_nil] at hr
  | cons ch t ih =>
    intro start hb r hr
    have hch := hb ch (by simp)
    rw [readsOf_cons] at hr
    rcases List.mem_cons.mp hr with rfl | hr'
    · show (((pyRead file start ch)).length : Int) ≤ c
      unfold pyRead
      rw [if_neg (by omega), List.length_take]
      have h1 : min ch.toNat (file.drop start.toNat).length ≤ ch.toNat := by omega
      omega
    · exact ih (start + ch) (fun x hx => hb x (by simp [hx])) r hr'

lemma lookup_mem_userPerms {l : List (String × UserPerm)} {k : String} {v : UserPerm}
    (h : l.lookup k = some v) : (k, v) ∈ l := by
  induction l with
  | nil => simp [List.lookup] at h
  | cons e t ih =>
    obtain ⟨k', v'⟩ := e
    rw [List.lookup] at h
    cases hkk : (k == k') with
    | true =>
      rw [hkk] at h
      have hk : k = k' := eq_of_beq hkk
      have hv : v' = v := by injection h
      subst hk
      subst hv
      simp
    | false =>
      rw [hkk] at h
      exact List.mem_cons_of_mem _ (ih h)

lemma mem_allActions (a : Access) : a ∈ allActions := by
  cases a <;> simp [allActions]

lemma matchRangeAt_eq (s : List Char) :
    matchRangeAt s =
      (if s.takeWhile Char.isDigit = [] then none
       else
        match s.dropWhile Char.isDigit with
        | '-' :: tl => some (s.takeWhile Char.isDigit, tl.takeWhile Char.isDigit)
        | _ => none) := rfl

lemma matchRangeAt_fst_ne_nil (s : List Char) (g0 g1 : List Char)
    (h : matchRangeAt s = some (g0, g1)) : g0 ≠ [] := by
  rw [matchRangeAt_eq] at h
  split at h
  · simp at h
  · rename_i hrun
    split at h
    · injection h with h'
      have h1 : s.takeWhile Char.isDigit = g0 := congrArg Prod.fst h'
      intro hnil
      exact hrun (h1.trans hnil)
    · simp at h

lemma reSearchRange_fst_ne_nil : ∀ (s : List Char) (g0 g1 : List Char),
    reSearchRange s = some (g0, g1) → g0 ≠ [] := by
  intro s
  induction s with
  | nil => intro g0 g1 h; simp [reSearchRange] at h
  | cons c rest ih =>
    intro g0 g1 h
    rw [reSearchRange] at h
    cases hm : matchRangeAt (c :: rest) with
    | some g =>
      rw [hm] at h
      injection h with h'
      subst h'
      exact matchRangeAt_fst_ne_nil _ g0 g1 hm
    | none =>
      rw [hm] at h
      exact ih g0 g1 h

lemma has_access_of_known (pol : Policy) (user : String) (a : Access)
    (pm : UserPerm) (dirs : List String) (segs : List String)
    (hu : pol.user_perms.lookup user = some pm)
    (ha : pm.actions.lookup a = some dirs)
    (hn : NormalizedSegs segs) :
    has_access pol user (joinSegs segs) a
      = some (Except.ok (grantDecision pol.all_dirs dirs segs)) := by
  have h1 : has_access pol user (joinSegs segs) a
      = (hasAccessWalk pol.all_dirs dirs ((joinSegs segs).length + 1) (joinSegs segs)).map
          Except.ok := by
    unfold has_access
    rw [hu]
    show (match pm.actions.lookup a with
      | none => some (Except.error forbiddenErr)
      | some dirs =>
        (hasAccessWalk pol.all_dirs dirs ((joinSegs segs).length + 1) (joinSegs segs)).map
          Except.ok) = _
    rw [ha]
  rw [h1, walk_correct pol.all_dirs dirs segs hn ((joinSegs segs).length + 1) (by omega)]
  rfl

lemma normalize_path_eq (st : String → Option StatInfo) (euid : Nat) (cwd basedir path : String) :
    normalize_path st euid cwd basedir path =
      (if pyabspath cwd (pyjoin basedir path) ≠ basedir ∧
          ¬ strStartsWith (pyabspath cwd (pyjoin basedir path)) (basedir ++ "/")
       then Except.error forbiddenErr
       else
        match st (pyabspath cwd (pyjoin basedir path)) with
        | none => Except.error forbiddenErr
        | some sr =>
          match sr.ftype with
          | FType.dir => Except.ok (pyabspath cwd (pyjoin basedir path),
              pystrip '/' (strDropChars (pyabspath cwd (pyjoin basedir path)) basedir.length),
              none)
          | FType.reg => Except.ok (pyabspath cwd (pyjoin basedir path),
              pysplitHead
                (pystrip '/' (strDropChars (pyabspath cwd (pyjoin basedir path)) basedir.length)),
              some (pysplitTail
                (pystrip '/' (strDropChars (pyabspath cwd (pyjoin basedir path)) basedir.length))))
          | FType.other => Except.error forbiddenErr) := rfl

lemma normalize_path_error_forbidden (st : String → Option StatInfo) (euid : Nat)
    (cwd basedir path : String) (e : AccessError)
    (h : normalize_path st euid cwd basedir path = Except.error e) : e = forbiddenErr := by
  rw [normalize_path_eq] at h
  split at h
  · injection h with h'
    exact h'.symm
  · split at h
    · injection h with h'
      exact h'.symm
    · split at h
      · simp at h
      · simp at h
      · injection h with h'
        exact h'.symm

lemma get_user_lookup_isSome (pol : Policy) (hwf : WellFormedPolicy pol)
    (req : Option (String × String)) :
    (pol.user_perms.lookup (get_user pol req).1).isSome = true := by
  cases req with
  | none =>
    show (pol.user_perms.lookup
      ((if getStoredCreds pol UNAUTH == (none : Option String) then
          ((UNAUTH : String), (none : Option String)) else (UNAUTH, none)).1)).isSome = true
    split <;> exact hwf.1
  | some up =>
    obtain ⟨u, p⟩ := up
    show (pol.user_perms.lookup
      ((if getStoredCreds pol u == some p then (u, some p) else (UNAUTH, none)).1)).isSome = true
    by_cases hb : getStoredCreds pol u == some p
    · rw [if_pos hb]
      cases hl : pol.user_perms.lookup u with
      | none =>
        exfalso
        unfold getStoredCreds at hb
        rw [hl] at hb
        simp at hb
      | some pm => rfl
    · rw [if_neg hb]
      exact hwf.1

lemma upload_file_eq (env : UploadEnv) (basedir directory reqFilename : String) :
    upload_file env basedir directory reqFilename =
      (if get_valid_filename (pysplitTail reqFilename) = "" then
        UploadResult.invalidRedirect directory
       else if env.accessR
          (pyjoin basedir (pyjoin directory (get_valid_filename (pysplitTail reqFilename)))) then
        UploadResult.duplicate
       else UploadResult.saved
          (pyjoin basedir (pyjoin directory (get_valid_filename (pysplitTail reqFilename))))) := rfl

/-! ### Claim theorems -/

/-- C1: for every stat oracle, working directory, root `basedir` and
user-supplied `path`, `normalize_path` returns the Forbidden error whenever
the canonicalized absolute path `P = abspath(join(basedir, path))` is neither
equal to the root nor an extension of `root + "/"`.  The containment check
runs before `os.stat`, so a path canonicalizing to an existing sibling
directory (root `/data/a`, candidate `/data/ab`) is rejected, never resolved
into — the witness instantiates exactly that sibling layout. -/
theorem c1_normalize_path_containment (st : String → Option StatInfo) (euid : Nat)
    (cwd basedir path : String)
    (h : ¬ (pyabspath cwd (pyjoin basedir path) = basedir ∨
            strStartsWith (pyabspath cwd (pyjoin basedir path)) (basedir ++ "/") = true)) :
    normalize_path st euid cwd basedir path = Except.error forbiddenErr := by
  have hc : pyabspath cwd (pyjoin basedir path) ≠ basedir ∧
      ¬ strStartsWith (pyabspath cwd (pyjoin basedir path)) (basedir ++ "/") := by
    push_neg at h
    exact ⟨h.1, by simpa using h.2⟩
  rw [normalize_path_eq, if_pos hc]

/-- Witness for C1: root `/data/a`, request `../ab` canonicalizing to
`/data/ab`, under a stat oracle in which `/data/ab` exists as a directory:
still Forbidden. -/
theorem c1_witness :
    ¬ (pyabspath "/" (pyjoin "/data/a" "../ab") = "/data/a" ∨
       strStartsWith (pyabspath "/" (pyjoin "/data/a" "../ab")) ("/data/a" ++ "/") = true) ∧
    statSibling (pyabspath "/" (pyjoin "/data/a" "../ab")) = some ⟨0, FType.dir⟩ ∧
    normalize_path statSibling 0 "/" "/data/a" "../ab" = Except.error forbiddenErr :=
  ⟨by decide, by decide,
    c1_normalize_path_containment statSibling 0 "/" "/data/a" "../ab" (by decide)⟩

/-- C4: whenever the stat oracle fails on the canonicalized path (including
"file does not exist"), `normalize_path` returns the Forbidden error, and
that error value is identical to the one produced by every other denial of
`normalize_path` — no caller-distinguishable "not found" outcome exists. -/
theorem c4_stat_failure_forbidden (st : String → Option StatInfo) (euid : Nat)
    (cwd basedir path : String)
    (hstat : st (pyabspath cwd (pyjoin basedir path)) = none) :
    normalize_path st euid cwd basedir path = Except.error forbiddenErr ∧
    ∀ (st2 : String → Option StatInfo) (p2 : String) (e : AccessError),
      normalize_path st2 euid cwd basedir p2 = Except.error e → e = forbiddenErr := by
  constructor
  · rw [normalize_path_eq]
    split
    · rfl
    · rw [hstat]
  · intro st2 p2 e he
    exact normalize_path_error_forbidden st2 euid cwd basedir p2 e he

/-- Witness for C4: a stat oracle in which nothing exists, applied to a
missing file under root `/data`. -/
theorem c4_witness :
    statNone (pyabspath "/" (pyjoin "/data" "missing.txt")) = none ∧
    normalize_path statNone 0 "/" "/data" "missing.txt" = Except.error forbiddenErr :=
  ⟨rfl, (c4_stat_failure_forbidden statNone 0 "/" "/data" "missing.txt" rfl).1⟩

/-- C3 counterexample: `has_access` does not return false for an unknown
principal or an unknown action — it raises `AccessError(403, "forbidden")`.
With policy `pol3` (only `"carol"`, whose table has only a LIST entry), the
unknown principal `"bob"` and the action DELETE for `"carol"` both produce
the error, not `false`. -/
theorem c3_counterexample :
    has_access pol3 "bob" "x" Access.LIST = some (Except.error forbiddenErr) ∧
    has_access pol3 "bob" "x" Access.LIST ≠ some (Except.ok false) ∧
    has_access pol3 "carol" "x" Access.DELETE = some (Except.error forbiddenErr) ∧
    has_access pol3 "carol" "x" Access.DELETE ≠ some (Except.ok false) := by
  exact ⟨by decide, by decide, by decide, by decide⟩

/-- C3 amended: for a principal not present in the policy, or an action with
no entry in a present principal's table, `has_access` raises
`AccessError(403, "forbidden")` — the same generic denial as every other
refusal — rather than returning false; the HTTP layer maps it to a plain 403
and the FTP adapter catches it and treats it as a denial. -/
theorem c3_unknown_user_or_action_raises (pol : Policy) (user d : String) (a : Access)
    (h : pol.user_perms.lookup user = none ∨
         ∃ pm, pol.user_perms.lookup user = some pm ∧ pm.actions.lookup a = none) :
    has_access pol user d a = some (Except.error forbiddenErr) := by
  unfold has_access
  rcases h with h | ⟨pm, h1, h2⟩
  · rw [h]
  · rw [h1]
    show (match pm.actions.lookup a with
      | none => some (Except.error forbiddenErr)
      | some dirs => (hasAccessWalk pol.all_dirs dirs (d.length + 1) d).map Except.ok) = _
    rw [h2]

/-- Witness for the amended C3 at the unknown principal `"bob"` of `pol3`. -/
theorem c3_unknown_user_or_action_raises_witness :
    pol3.user_perms.lookup "bob" = none ∧
    has_access pol3 "bob" "x" Access.LIST = some (Except.error forbiddenErr) :=
  ⟨by decide,
    c3_unknown_user_or_action_raises pol3 "bob" "x" Access.LIST (Or.inl (by decide))⟩

/-- C5 counterexample: the credential check is not always false for the
reserved `anonymous` principal.  With the default policy entry
(`creds = None`), an absent (`None`) supplied secret makes the `get_user`
comparison succeed (`None == None` in Python), and the FTP
`validate_authentication` likewise does not raise. -/
theorem c5_counterexample :
    get_user_check pol5 UNAUTH none = true ∧
    validate_authentication pol5 UNAUTH none = AuthOutcome.ok ∧
    (true : Bool) ≠ false :=
  ⟨by decide, by decide, by decide⟩

/-- C5 amended: for every actually supplied secret string (the only shape a
remote client can present), authenticating the reserved `anonymous`
principal, whose stored creds entry is `None`, fails: the `get_user`
comparison is false and the FTP authorizer raises `AuthenticationFailed`.
Only the absent/`None` secret — the no-credentials fallback produced by
`get_user_from_request` itself — makes the comparison succeed. -/
theorem c5_anonymous_rejects_string_secret (pol : Policy) (s : String)
    (hanon : getStoredCreds pol UNAUTH = none) :
    get_user_check pol UNAUTH (some s) = false ∧
    validate_authentication pol UNAUTH (some s) = AuthOutcome.authenticationFailed := by
  constructor
  · unfold get_user_check
    rw [hanon]
    rfl
  · unfold validate_authentication
    rw [hanon]
    rfl

/-- Witness for the amended C5 at the default anonymous entry and the
supplied secret `"guess"`. -/
theorem c5_anonymous_rejects_string_secret_witness :
    getStoredCreds pol5 UNAUTH = none ∧
    (get_user_check pol5 UNAUTH (some "guess") = false ∧
     validate_authentication pol5 UNAUTH (some "guess") = AuthOutcome.authenticationFailed) :=
  ⟨by decide, c5_anonymous_rejects_string_secret pol5 "guess" (by decide)⟩

/-- C8 counterexample: the duplicate check is `os.access(fullname, os.R_OK)`,
not existence.  In an environment where the target `/base/d/f.txt` exists but
is not readable by the process, the upload is saved — a write is performed —
instead of being rejected as a duplicate. -/
theorem c8_counterexample :
    upload_file env8 "/base" "d" "f.txt" = UploadResult.saved "/base/d/f.txt" ∧
    env8.existsAt "/base/d/f.txt" = true ∧
    UploadResult.saved "/base/d/f.txt" ≠ UploadResult.duplicate :=
  ⟨by decide, rfl, by decide⟩

/-- C8 amended: for every upload whose sanitized target filename is nonempty
and resolves to a path that passes the `os.access(-, R_OK)` readability check
(the situation of an existing file readable by the server), `upload_file`
performs no write and returns the generic duplicate rejection
(`Response("duplicate", 403)`). -/
theorem c8_duplicate_on_readable_target (env : UploadEnv)
    (basedir directory reqFilename : String)
    (hname : get_valid_filename (pysplitTail reqFilename) ≠ "")
    (hacc : env.accessR
        (pyjoin basedir (pyjoin directory (get_valid_filename (pysplitTail reqFilename))))
        = true) :
    upload_file env basedir directory reqFilename = UploadResult.duplicate := by
  rw [upload_file_eq, if_neg hname, if_pos hacc]

/-- Witness for the amended C8: readable existing target `f.txt`. -/
theorem c8_duplicate_on_readable_target_witness :
    get_valid_filename (pysplitTail "f.txt") ≠ "" ∧
    env8b.accessR (pyjoin "/base" (pyjoin "d" (get_valid_filename (pysplitTail "f.txt")))) = true ∧
    upload_file env8b "/base" "d" "f.txt" = UploadResult.duplicate :=
  ⟨by decide, rfl, c8_duplicate_on_readable_target env8b "/base" "d" "f.txt" (by decide) rfl⟩

lemma streamfile_some (file : List Nat) (c : Int) (h : String) :
    streamfile file c (some h) =
      (if h = "" then Except.ok (StreamOut.whole file)
       else
        match reSearchRange h.data with
        | none => Except.error PyExc.attributeError
        | some (g0, g1) => Except.ok (StreamOut.ranged (rangedResp file c g0 g1))) := rfl

/-- C2: for every known principal (present in `user_perms`) with a known
action entry, and every normalized directory `joinSegs segs` (no leading or
trailing separator, segments nonempty and slash-free), `has_access` returns
exactly the nearest-registered-ancestor decision: the granted-list membership
of the first registered name on the ancestor chain of the directory (itself
first, root last).  If the directory itself is registered, the nearest
ancestor is the directory, so the answer is plain membership; if no ancestor
is registered the decision is false. -/
theorem c2_has_access_nearest_ancestor (pol : Policy) (user : String) (a : Access)
    (segs : List String) (pm : UserPerm) (dirs : List String)
    (hu : pol.user_perms.lookup user = some pm)
    (ha : pm.actions.lookup a = some dirs)
    (hn : NormalizedSegs segs) :
    has_access pol user (joinSegs segs) a
      = some (Except.ok (grantDecision pol.all_dirs dirs segs)) ∧
    (joinSegs segs ∈ pol.all_dirs →
      grantDecision pol.all_dirs dirs segs = decide (joinSegs segs ∈ dirs)) ∧
    (nearestRegAncestorSegs pol.all_dirs segs = none →
      grantDecision pol.all_dirs dirs segs = false) := by
  refine ⟨has_access_of_known pol user a pm dirs segs hu ha hn, ?_, ?_⟩
  · intro hmem
    unfold grantDecision nearestRegAncestorSegs
    obtain ⟨rest, hrest⟩ := prefixChain_head segs
    rw [hrest, List.map_cons, List.find?_cons_of_pos _ (by simpa using hmem)]
  · intro hnone
    unfold grantDecision
    rw [hnone]

/-- Witness for C2 at a concrete policy: user `"u"` holds LIST on registered
directory `"a"`; the normalized subdirectory `"a/b"` inherits the grant from
its nearest registered ancestor `"a"`. -/
theorem c2_witness :
    pol2w.user_perms.lookup "u"
      = some { creds := some "pw", actions := [(Access.LIST, ["a"])] } ∧
    NormalizedSegs ["a", "b"] ∧
    (has_access pol2w "u" (joinSegs ["a", "b"]) Access.LIST
        = some (Except.ok (grantDecision pol2w.all_dirs ["a"] ["a", "b"])) ∧
     (joinSegs ["a", "b"] ∈ pol2w.all_dirs →
        grantDecision pol2w.all_dirs ["a"] ["a", "b"] = decide (joinSegs ["a", "b"] ∈ ["a"])) ∧
     (nearestRegAncestorSegs pol2w.all_dirs ["a", "b"] = none →
        grantDecision pol2w.all_dirs ["a"] ["a", "b"] = false)) ∧
    grantDecision pol2w.all_dirs ["a"] ["a", "b"] = true ∧
    nearestRegAncestorSegs pol2w.all_dirs ["a", "b"] = some "a" :=
  ⟨by decide, by decide,
    c2_has_access_nearest_ancestor pol2w "u" Access.LIST ["a", "b"]
      { creds := some "pw", actions := [(Access.LIST, ["a"])] } ["a"]
      (by decide) (by decide) (by decide),
    by decide, by decide⟩

/-- C10: for every chunk size `c ≥ 1`, start `s ≥ 0` and requested length
`L ≥ 0`, the chunk iterator of `streamfile` terminates (fuel `L.toNat + 1`
suffices) after exactly `⌈L/c⌉ = (L + c - 1)/c` yields; every chunk request
is between 1 and `c` (so the whole file is never read in one step), the
requests sum to exactly `L`, and every yielded read returns at most `c`
bytes. -/
theorem c10_chunk_iterator (c s L : Int) (file : List Nat)
    (hc : 1 ≤ c) (hs : 0 ≤ s) (hL : 0 ≤ L) :
    ∃ chunks, chunkSteps c L (L.toNat + 1) 0 = some chunks ∧
      chunks.length = (L.toNat + c.toNat - 1) / c.toNat ∧
      chunks.sum = L ∧
      (∀ ch ∈ chunks, 1 ≤ ch ∧ ch ≤ c) ∧
      (∀ r ∈ readsOf file s chunks, (r.length : Int) ≤ c) := by
  obtain ⟨chunks, he, hlen, hsum, hbnd⟩ :=
    chunkSteps_correct c hc (L.toNat + 1) L 0 (le_refl 0) hL (by omega)
  refine ⟨chunks, he, ?_, ?_, hbnd, ?_⟩
  · simpa using hlen
  · simpa using hsum
  · exact readsOf_length_le file c chunks s hbnd

/-- Witness for C10: chunk size 3, length 7 over a 10-byte file: three
yields of 3, 3 and 1 bytes. -/
theorem c10_witness :
    (1 : Int) ≤ 3 ∧ (0 : Int) ≤ 0 ∧ (0 : Int) ≤ 7 ∧
    (∃ chunks, chunkSteps 3 7 ((7 : Int).toNat + 1) 0 = some chunks ∧
      chunks.length = ((7 : Int).toNat + (3 : Int).toNat - 1) / (3 : Int).toNat ∧
      chunks.sum = 7 ∧
      (∀ ch ∈ chunks, 1 ≤ ch ∧ ch ≤ 3) ∧
      (∀ r ∈ readsOf (List.range 10) 0 chunks, (r.length : Int) ≤ 3)) :=
  ⟨by decide, by decide, by decide,
    c10_chunk_iterator 3 0 7 (List.range 10) (by decide) (by decide) (by decide)⟩

/-- C7 counterexample: a present but unmatched Range header does not fall
back to full-file semantics — `m.groups()` on the failed search raises
`AttributeError`, which the decorator converts into a 302 redirect. -/
theorem c7_counterexample :
    streamfile (List.replicate 5 0) 1 (some "bytes=junk") = Except.error PyExc.attributeError ∧
    streamfile (List.replicate 5 0) 1 (some "bytes=junk")
      ≠ Except.ok (StreamOut.whole (List.replicate 5 0)) ∧
    responseOfStream (streamfile (List.replicate 5 0) 1 (some "bytes=junk"))
      = WebResp.redirect302 :=
  ⟨by decide, by decide, by decide⟩

/-- C7 amended: for every present, nonempty Range header from which the
`(\d+)-(\d*)` pattern extracts nothing, `streamfile` raises `AttributeError`
(from `None.groups()`); the surrounding `redirect_on_exception` decorator
catches it and answers with a generic `302` redirect to `/` instead of
serving the file.  (Headers where the pattern does match somewhere are
interpreted permissively; a matched-but-empty end group falls back to
end-of-file.) -/
theorem c7_unmatched_range_raises (file : List Nat) (c : Int) (h : String)
    (hne : h ≠ "") (hm : reSearchRange h.data = none) :
    streamfile file c (some h) = Except.error PyExc.attributeError ∧
    responseOfStream (streamfile file c (some h)) = WebResp.redirect302 := by
  have h1 : streamfile file c (some h) = Except.error PyExc.attributeError := by
    rw [streamfile_some, if_neg hne, hm]
  refine ⟨h1, ?_⟩
  rw [h1]
  rfl

/-- Witness for the amended C7 at the malformed header `bytes=junk`. -/
theorem c7_witness :
    ("bytes=junk" : String) ≠ "" ∧
    reSearchRange ("bytes=junk" : String).data = none ∧
    (streamfile (List.replicate 5 0) 1 (some "bytes=junk") = Except.error PyExc.attributeError ∧
     responseOfStream (streamfile (List.replicate 5 0) 1 (some "bytes=junk"))
       = WebResp.redirect302) :=
  ⟨by decide, by decide,
    c7_unmatched_range_raises (List.replicate 5 0) 1 "bytes=junk" (by decide) (by decide)⟩

/-- C6 counterexample: for the syntactically well-formed header `bytes=5-2`
on a 20-byte file the code computes `length = min(2 - 5 + 1, 20 - 5) = -2`,
yet the produced body has 0 bytes, not "exactly length" bytes, so the
claimed body-length formula fails on inverted (or past-EOF) ranges. -/
theorem c6_counterexample :
    streamfile (List.replicate 20 0) 7 (some "bytes=5-2") =
      Except.ok (StreamOut.ranged
        { status := 206, contentRange := "bytes 5-2/20", body := some [] }) ∧
    min ((2 : Int) - 5 + 1) ((20 : Int) - 5) = -2 ∧
    ((([] : List (List Nat)).map List.length).sum : Int) = 0 ∧
    (0 : Int) ≠ -2 :=
  ⟨by decide, by decide, by decide, by decide⟩

/-- C6 amended: for a file of size `S`, a chunk size of at least 1 and a
Range header matched by the pattern with groups `g0` (start digits, always
nonempty) and `g1` (optional end digits), `streamfile` returns status 206
with header `Content-Range: bytes byte1-(byte1+length-1)/S` where
`byte1 = int(g0)` and `length = min(byte2 - byte1 + 1, S - byte1)` (or
`S - byte1` when no end is given), and a body of exactly `max(length, 0)`
bytes: exactly `length` bytes whenever `length ≥ 0`, and an empty body when
the computed length is negative (end before start, or start past EOF). -/
theorem c6_range_response (file : List Nat) (c : Int) (h : String) (g0 g1 : List Char)
    (hc : 1 ≤ c) (hm : reSearchRange h.data = some (g0, g1)) :
    ∃ bs, streamfile file c (some h) = Except.ok (StreamOut.ranged
        { status := 206,
          contentRange := "bytes " ++ toString (rangeStart g0) ++ "-"
              ++ toString (rangeStart g0 + rangeLen (file.length : Int) g0 g1 - 1)
              ++ "/" ++ toString ((file.length : Int)),
          body := some bs }) ∧
      (bs.map List.length).sum = (rangeLen (file.length : Int) g0 g1).toNat := by
  have hne : h ≠ "" := by
    intro he
    subst he
    simp [reSearchRange] at hm
  have hg0 : g0 ≠ [] := reSearchRange_fst_ne_nil h.data g0 g1 hm
  have hb1 : 0 ≤ rangeStart g0 := by
    unfold rangeStart
    rw [if_pos hg0]
    exact Int.ofNat_nonneg _
  have hlen_le : rangeStart g0 + rangeLen (file.length : Int) g0 g1 ≤ (file.length : Int) := by
    unfold rangeLen
    cases rangeEnd g1 with
    | none =>
      show rangeStart g0 + ((file.length : Int) - rangeStart g0) ≤ (file.length : Int)
      omega
    | some b2 =>
      show rangeStart g0
          + min (b2 - rangeStart g0 + 1) ((file.length : Int) - rangeStart g0)
          ≤ (file.length : Int)
      have := min_le_right (b2 - rangeStart g0 + 1) ((file.length : Int) - rangeStart g0)
      omega
  by_cases hL : 0 ≤ rangeLen (file.length : Int) g0 g1
  · obtain ⟨chunks, he, hlen, hsum, hbnd⟩ :=
      chunkSteps_correct c hc ((rangeLen (file.length : Int) g0 g1).toNat + 1)
        (rangeLen (file.length : Int) g0 g1) 0 (le_refl 0) hL (by omega)
    have hbody : sendChunksIter file c (rangeStart g0) (rangeLen (file.length : Int) g0 g1)
        = some (readsOf file (rangeStart g0) chunks) := by
      unfold sendChunksIter
      rw [he]
      rfl
    refine ⟨readsOf file (rangeStart g0) chunks, ?_, ?_⟩
    · rw [streamfile_some, if_neg hne, hm]
      show Except.ok (StreamOut.ranged (rangedResp file c g0 g1)) = _
      unfold rangedResp
      rw [hbody]
    · rw [readsOf_length_sum file chunks (rangeStart g0) hb1
        (fun x hx => (hbnd x hx).1) (by omega), hsum]
      simp
  · have hz : (rangeLen (file.length : Int) g0 g1).toNat = 0 := by omega
    have hbody : sendChunksIter file c (rangeStart g0) (rangeLen (file.length : Int) g0 g1)
        = some ([] : List (List Nat)) := by
      unfold sendChunksIter
      rw [hz, chunkSteps_succ, if_neg (by omega)]
      rfl
    refine ⟨[], ?_, ?_⟩
    · rw [streamfile_some, if_neg hne, hm]
      show Except.ok (StreamOut.ranged (rangedResp file c g0 g1)) = _
      unfold rangedResp
      rw [hbody]
    · simp [hz]

/-- Witness for the amended C6 at the spec's own example: 1000-byte file,
header `bytes=900-`: status 206, `Content-Range: bytes 900-999/1000`, body
of 100 bytes. -/
theorem c6_witness :
    (1 : Int) ≤ 128 ∧
    reSearchRange ("bytes=900-" : String).data = some (['9', '0', '0'], []) ∧
    (∃ bs, streamfile (List.replicate 1000 0) 128 (some "bytes=900-")
        = Except.ok (StreamOut.ranged
          { status := 206,
            contentRange := "bytes " ++ toString (rangeStart ['9', '0', '0']) ++ "-"
                ++ toString (rangeStart ['9', '0', '0']
                    + rangeLen ((List.replicate 1000 (0 : Nat)).length : Int)
                        ['9', '0', '0'] [] - 1)
                ++ "/" ++ toString (((List.replicate 1000 (0 : Nat)).length : Int)),
            body := some bs }) ∧
      (bs.map List.length).sum
        = (rangeLen ((List.replicate 1000 (0 : Nat)).length : Int) ['9', '0', '0'] []).toNat) ∧
    ("bytes " ++ toString (rangeStart ['9', '0', '0']) ++ "-"
        ++ toString (rangeStart ['9', '0', '0']
            + rangeLen ((List.replicate 1000 (0 : Nat)).length : Int) ['9', '0', '0'] [] - 1)
        ++ "/" ++ toString (((List.replicate 1000 (0 : Nat)).length : Int)))
      = "bytes 900-999/1000" ∧
    (rangeLen ((List.replicate 1000 (0 : Nat)).length : Int) ['9', '0', '0'] []).toNat = 100 :=
  ⟨by decide, by decide,
    c6_range_response (List.replicate 1000 0) 128 "bytes=900-" ['9', '0', '0'] []
      (by decide) (by decide),
    by decide, by decide⟩

/-- C9 counterexample: the code does not distinguish "no credentials at all"
from "valid credentials but insufficient rights" on a denied listing.  With
policy `pol9`, `alice:pw` authenticates (the resolved principal is `alice`)
but holds no grants; her denied root listing yields the same challenge-worthy
401 Unauthorized outcome as the fully anonymous request, not a plain denial. -/
theorem c9_counterexample :
    (get_user pol9 (some ("alice", "pw"))).1 = "alice" ∧
    handleListResp pol9 (some ("alice", "pw")) "" = some WebResp.challenge401 ∧
    handleListResp pol9 none "" = some WebResp.challenge401 :=
  ⟨by decide, by decide, by decide⟩

/-- C9 amended: for every well-formed policy (anonymous present, every
present principal carrying all five action entries — the shape
`compute_permissions` guarantees) and every normalized directory, the listing
branch of `handle` either grants or raises `AccessError(401, "forbidden")` —
the challenge-worthy Unauthorized outcome — regardless of whether
credentials were presented; presented-but-insufficient credentials receive
the same 401 challenge as the anonymous case, never a distinguishable plain
denial. -/
theorem c9_denied_listing_always_challenges (pol : Policy) (req : Option (String × String))
    (segs : List String) (hwf : WellFormedPolicy pol) (hn : NormalizedSegs segs) :
    handle_list pol req (joinSegs segs) = some (Except.ok ()) ∨
    handle_list pol req (joinSegs segs) = some (Except.error ⟨401, "forbidden"⟩) := by
  have hus := get_user_lookup_isSome pol hwf req
  obtain ⟨pm, hpm⟩ := Option.isSome_iff_exists.mp hus
  have hmem := lookup_mem_userPerms hpm
  have hact : ∀ a : Access, ∃ dirs, pm.actions.lookup a = some dirs := fun a =>
    Option.isSome_iff_exists.mp (hwf.2 _ hmem a (mem_allActions a))
  obtain ⟨dL, hdL⟩ := hact Access.LIST
  obtain ⟨dU, hdU⟩ := hact Access.UPLOAD
  obtain ⟨dM, hdM⟩ := hact Access.MKDIR
  have hL := has_access_of_known pol _ Access.LIST pm dL segs hpm hdL hn
  have hU := has_access_of_known pol _ Access.UPLOAD pm dU segs hpm hdU hn
  have hM := has_access_of_known pol _ Access.MKDIR pm dM segs hpm hdM hn
  unfold handle_list
  rw [hL]
  cases hbL : grantDecision pol.all_dirs dL segs with
  | true => exact Or.inl rfl
  | false =>
    rw [hU]
    cases hbU : grantDecision pol.all_dirs dU segs with
    | true => exact Or.inl rfl
    | false =>
      rw [hM]
      cases hbM : grantDecision pol.all_dirs dM segs with
      | true => exact Or.inl rfl
      | false => exact Or.inr rfl

/-- Witness for the amended C9: anonymous request for the root listing under
`pol9` (no grants anywhere): one of the two permitted outcomes holds. -/
theorem c9_witness :
    WellFormedPolicy pol9 ∧ NormalizedSegs [] ∧
    (handle_list pol9 none (joinSegs []) = some (Except.ok ()) ∨
     handle_list pol9 none (joinSegs []) = some (Except.error ⟨401, "forbidden"⟩)) :=
  ⟨by decide, by decide,
    c9_denied_listing_always_challenges pol9 none [] (by decide) (by decide)⟩
